import Mathlib

/-
  Verification of the Typst drawing backend for plotters.

  The Rust source (src/src/lib.rs) is a single adapter that accumulates one
  markup command per draw call in a text buffer and flushes it on present.
  We embed the backend shallowly: each emitted line of markup becomes one
  structured Cmd value carrying exactly the data the source formats into the
  line, the backend state carries the command buffer, the fixed size, the
  saved flag and whether the target is a file, and the file system is
  abstracted by a boolean outcome passed to present.  The f64 alpha channel
  and font size are modelled as rationals; the line geometry (sqrt and atan2
  over f64) is modelled over the reals.
-/

namespace PlottersTypst

/-- A backend color: RGB triple (one byte each) plus an alpha channel.
Mirrors plotters BackendColor with the f64 alpha modelled as a rational. -/
structure BackendColor where
  alpha : ℚ
  rgb : ℕ × ℕ × ℕ
deriving DecidableEq

/-- The Rust numeric cast from f64 to u32 used at src/src/lib.rs line 26:
truncation toward zero, saturating at the type bounds.  For nonnegative
values this is the floor; negative values collapse to 0. -/
def rustCastU32 (q : ℚ) : ℕ := min (Int.toNat (Int.floor q)) (2 ^ 32 - 1)

/-- Mirrors make_typst_color, src/src/lib.rs lines 18-31. -/
def make_typst_color (color : BackendColor) : String :=
  if color.alpha < 1 then
    ("rgb(") ++ toString color.rgb.1 ++ (", ") ++ toString color.rgb.2.1 ++ (", ")
      ++ toString color.rgb.2.2 ++ (", ") ++ toString (rustCastU32 (color.alpha * 100)) ++ ("%)")
  else
    ("rgb(") ++ toString color.rgb.1 ++ (", ") ++ toString color.rgb.2.1 ++ (", ")
      ++ toString color.rgb.2.2 ++ (")")

/-- Mirrors the BackendStyle trait surface used by the source: a color and a
stroke width (u32). -/
structure Style where
  color : BackendColor
  stroke_width : ℕ
deriving DecidableEq

/-- Horizontal text anchor, mirrors plotters text_anchor HPos. -/
inductive HPos where
  | left
  | center
  | right
deriving DecidableEq

/-- Vertical text anchor, mirrors plotters text_anchor VPos. -/
inductive VPos where
  | top
  | center
  | bottom
deriving DecidableEq

/-- Mirrors plotters FontStyle. -/
inductive FontStyle where
  | normal
  | oblique
  | italic
  | bold
deriving DecidableEq

/-- Mirrors plotters FontTransform. -/
inductive FontTransform where
  | none
  | rotate90
  | rotate180
  | rotate270
deriving DecidableEq

/-- Text anchor, mirrors plotters text_anchor Pos. -/
structure Anchor where
  h_pos : HPos
  v_pos : VPos
deriving DecidableEq

/-- Mirrors the BackendTextStyle trait surface used by the source: color,
font size (f64, modelled as a rational), font family, font style, transform
and anchor. -/
structure TextStyle where
  color : BackendColor
  size : ℚ
  family : String
  style : FontStyle
  transform : FontTransform
  anchor : Anchor
deriving DecidableEq

/-- The list of characters escaped by escape_text. -/
def specials : List Char := ['\\', '"', '#', '$']

/-- One pass of Rust str replace with a single-character pattern: every
occurrence of the pattern character is replaced by the replacement. -/
def replaceChar (p : Char) (rep : List Char) : List Char → List Char
  | [] => []
  | c :: rest => (if c = p then rep else [c]) ++ replaceChar p rep rest

/-- Mirrors escape_text, src/src/lib.rs lines 55-60: four sequential
single-character replacements, backslash first. -/
def escapeList (l : List Char) : List Char :=
  replaceChar '$' ['\\', '$']
    (replaceChar '#' ['\\', '#']
      (replaceChar '"' ['\\', '"']
        (replaceChar '\\' ['\\', '\\'] l)))

/-- escape_text on strings. -/
def escape_text (s : String) : String := String.mk (escapeList s.data)

/-- The per-character escaping function that the four sequential replaces
amount to. -/
def escChar (c : Char) : List Char :=
  if c ∈ specials then ['\\', c] else [c]

/-- A character sequence is well escaped when every occurrence of a special
character is the second character of an escape pair starting with a
backslash. -/
def wellEscaped : List Char → Bool
  | [] => true
  | c :: rest =>
    if c = '\\' then
      match rest with
      | [] => false
      | d :: rest2 => decide (d ∈ specials) && wellEscaped rest2
    else
      decide (c ∉ specials) && wellEscaped rest

/-- The standard base64 alphabet, mirrors BASE64_CHARS at src/src/lib.rs
line 432. -/
def base64Chars : List Char :=
  ("ABCDEFGHIJKLMNOPQRSTUVWXYZabcdefghijklmnopqrstuvwxyz0123456789+/").toList

/-- Indexing into the base64 alphabet; in the source every computed index is
in bounds, so the default is never used. -/
def b64At (i : ℕ) : Char := base64Chars.getD i ('A')

/-- Mirrors base64_encode, src/src/lib.rs lines 431-467: the loop consumes
3-byte groups while at least three bytes remain, then the remainder is
padded with one or two equals signs.  Bytes are naturals below 256. -/
def base64_encode : List ℕ → List Char
  | b1 :: b2 :: b3 :: rest =>
    b64At (b1 >>> 2) ::
    b64At (((b1 &&& 3) <<< 4) ||| (b2 >>> 4)) ::
    b64At (((b2 &&& 15) <<< 2) ||| (b3 >>> 6)) ::
    b64At (b3 &&& 63) ::
    base64_encode rest
  | [b1, b2] =>
    [b64At (b1 >>> 2), b64At (((b1 &&& 3) <<< 4) ||| (b2 >>> 4)),
     b64At ((b2 &&& 15) <<< 2), '=']
  | [b1] =>
    [b64At (b1 >>> 2), b64At ((b1 &&& 3) <<< 4), '=', '=']
  | [] => []

/-- The fill and stroke attribute strings shared by draw_rect (lines
194-201) and draw_circle (lines 277-284): filled shapes get the fill color
and no stroke, outlined shapes get no fill and a stroke of the given width
and color. -/
def fill_stroke_attrs (fill : Bool) (color : String) (stroke : ℕ) : String × String :=
  if fill then (("fill: ") ++ color, ("stroke: none"))
  else (("fill: none"), ("stroke: ") ++ toString stroke ++ ("pt + ") ++ color)

/-- Font family mapping of draw_text, src/src/lib.rs lines 316-322. -/
def font_family_of (family : String) : String :=
  match family with
  | "sans-serif" => ("Liberation Sans")
  | "serif" => ("Liberation Serif")
  | "monospace" => ("Liberation Mono")
  | other => other

/-- Top and bottom edge attributes for vertical anchoring, src/src/lib.rs
lines 327-331. -/
def edges_of : VPos → String × String
  | VPos.top => (("\"bounds\""), ("\"bounds\""))
  | VPos.center => (("\"cap-height\""), ("\"baseline\""))
  | VPos.bottom => (("\"baseline\""), ("\"baseline\""))

/-- Font weight attribute, src/src/lib.rs lines 334-337. -/
def font_weight_of : FontStyle → String
  | FontStyle.bold => ("\"bold\"")
  | _ => ("\"regular\"")

/-- Font slant attribute, src/src/lib.rs lines 339-342. -/
def font_slant_of : FontStyle → String
  | FontStyle.italic => ("\"italic\"")
  | FontStyle.oblique => ("\"italic\"")
  | _ => ("\"normal\"")

/-- Rotation wrapper opening, src/src/lib.rs lines 345-350. -/
def rotation_attr_of : FontTransform → String
  | FontTransform.rotate90 => ("rotate(90deg, ")
  | FontTransform.rotate180 => ("rotate(180deg, ")
  | FontTransform.rotate270 => ("rotate(270deg, ")
  | FontTransform.none => ("")

/-- Rotation wrapper closing, src/src/lib.rs line 352. -/
def rotation_close_of (t : FontTransform) : String :=
  if rotation_attr_of t = ("") then ("") else (")")

/-- Horizontal alignment of the escaped text, src/src/lib.rs lines 355-371:
left anchored text is embedded as is, right and center anchored text is
wrapped in a contextual measure-and-shift expression. -/
def aligned_text (h : HPos) (escaped : String) : String :=
  match h with
  | HPos.left => escaped
  | HPos.right =>
    ("#context \x7b let m = measure([") ++ escaped ++ ("]); h(-m.width); [")
      ++ escaped ++ ("] \x7d")
  | HPos.center =>
    ("#context \x7b let m = measure([") ++ escaped ++ ("]); h(-m.width / 2); [")
      ++ escaped ++ ("] \x7d")

/-- One emitted line of markup.  Each constructor carries exactly the data
the source formats into the corresponding command line, so equality of
command lists coincides with byte identity of the produced text. -/
inductive Cmd where
  | openBox (w h : ℕ)
  | close
  | pixel (p : ℤ × ℤ) (color : String)
  | line (p : ℤ × ℤ) (dx dy : ℤ) (stroke : ℕ) (color : String)
  | rect (p : ℤ × ℤ) (w h : ℤ) (fillAttr strokeAttr : String)
  | polygon (color : String) (pts : List (ℤ × ℤ))
  | circle (p : ℤ × ℤ) (radius : ℕ) (fillAttr strokeAttr : String)
  | text (p : ℤ × ℤ) (rotationAttr : String) (fontSize : ℚ) (color weight slant family topEdge bottomEdge content rotationClose : String)
  | image (p : ℤ × ℤ) (base64Data : String) (w h : ℕ)
deriving DecidableEq

/-- The backend state: whether the target is a file (Target File) or a
caller-owned string (Target Buffer), the accumulated command buffer, the
canvas size and the saved flag.  Mirrors TypstBackend, src/src/lib.rs lines
33-52. -/
structure TypstBackend where
  targetIsFile : Bool
  buf : List Cmd
  size : ℕ × ℕ
  saved : Bool
deriving DecidableEq

/-- Mirrors write_command, src/src/lib.rs lines 62-66: append one command
line to the buffer. -/
def TypstBackend.write_command (tb : TypstBackend) (c : Cmd) : TypstBackend :=
  { tb with buf := tb.buf ++ [c] }

/-- Mirrors new and with_string (src/src/lib.rs lines 80-101), which differ
only in the target; both call init_canvas, emitting the opening sized and
clipped box line. -/
def mk_backend (isFile : Bool) (size : ℕ × ℕ) : TypstBackend :=
  TypstBackend.write_command { targetIsFile := isFile, buf := [], size := size, saved := false }
    (Cmd.openBox size.1 size.2)

/-- Result of one backend call: Ok or a DrawingError wrapping a message. -/
inductive DrawResult where
  | ok
  | drawingError (msg : String)
deriving DecidableEq

/-- Mirrors present, src/src/lib.rs lines 115-133.  The io_ok flag abstracts
the two file system calls (File create and write_all): when the target is a
file and io_ok is false the error is propagated before the saved flag is
set.  Note the closing command is written before the file operations. -/
def present (io_ok : Bool) (tb : TypstBackend) : TypstBackend × DrawResult :=
  if tb.saved then (tb, DrawResult.ok)
  else
    if tb.targetIsFile then
      if io_ok then ({ tb.write_command Cmd.close with saved := true }, DrawResult.ok)
      else (tb.write_command Cmd.close, DrawResult.drawingError ("file io failure"))
    else ({ tb.write_command Cmd.close with saved := true }, DrawResult.ok)

/-- Mirrors draw_pixel, src/src/lib.rs lines 135-151. -/
def draw_pixel (point : ℤ × ℤ) (color : BackendColor) (tb : TypstBackend) :
    TypstBackend × DrawResult :=
  if color.alpha = 0 then (tb, DrawResult.ok)
  else (tb.write_command (Cmd.pixel point (make_typst_color color)), DrawResult.ok)

/-- Mirrors draw_line, src/src/lib.rs lines 153-177.  The source computes
dx, dy and formats from, length(dx, dy), angle(dx, dy), the stroke width
and the color into the line; the command stores from, dx, dy, stroke width
and color, which determine that line. -/
def draw_line (f t : ℤ × ℤ) (style : Style) (tb : TypstBackend) :
    TypstBackend × DrawResult :=
  if style.color.alpha = 0 then (tb, DrawResult.ok)
  else
    (tb.write_command
      (Cmd.line f (t.1 - f.1) (t.2 - f.2) style.stroke_width (make_typst_color style.color)),
     DrawResult.ok)

/-- Mirrors draw_rect, src/src/lib.rs lines 179-209. -/
def draw_rect (upper_left bottom_right : ℤ × ℤ) (style : Style) (fill : Bool)
    (tb : TypstBackend) : TypstBackend × DrawResult :=
  if style.color.alpha = 0 then (tb, DrawResult.ok)
  else
    (tb.write_command
      (Cmd.rect upper_left (bottom_right.1 - upper_left.1) (bottom_right.2 - upper_left.2)
        (fill_stroke_attrs fill (make_typst_color style.color) style.stroke_width).1
        (fill_stroke_attrs fill (make_typst_color style.color) style.stroke_width).2),
     DrawResult.ok)

/-- Consecutive pairs of a list, mirrors windows(2) at src/src/lib.rs line
226. -/
def pairsOf : List (ℤ × ℤ) → List ((ℤ × ℤ) × (ℤ × ℤ))
  | a :: b :: rest => (a, b) :: pairsOf (b :: rest)
  | _ => []

/-- Mirrors draw_path, src/src/lib.rs lines 211-233: transparent or short
paths are no-ops, otherwise one draw_line call per consecutive pair (each
returning Ok, so the question mark never propagates). -/
def draw_path (path : List (ℤ × ℤ)) (style : Style) (tb : TypstBackend) :
    TypstBackend × DrawResult :=
  if style.color.alpha = 0 then (tb, DrawResult.ok)
  else if path.length < 2 then (tb, DrawResult.ok)
  else
    ((pairsOf path).foldl (fun s pq => (draw_line pq.1 pq.2 style s).1) tb, DrawResult.ok)

/-- Mirrors fill_polygon, src/src/lib.rs lines 235-263. -/
def fill_polygon (path : List (ℤ × ℤ)) (style : Style) (tb : TypstBackend) :
    TypstBackend × DrawResult :=
  if style.color.alpha = 0 then (tb, DrawResult.ok)
  else if path = [] then (tb, DrawResult.ok)
  else (tb.write_command (Cmd.polygon (make_typst_color style.color) path), DrawResult.ok)

/-- Mirrors draw_circle, src/src/lib.rs lines 265-297: the emitted position
is the center shifted by the radius on both axes. -/
def draw_circle (center : ℤ × ℤ) (radius : ℕ) (style : Style) (fill : Bool)
    (tb : TypstBackend) : TypstBackend × DrawResult :=
  if style.color.alpha = 0 then (tb, DrawResult.ok)
  else
    (tb.write_command
      (Cmd.circle (center.1 - (radius : ℤ), center.2 - (radius : ℤ)) radius
        (fill_stroke_attrs fill (make_typst_color style.color) style.stroke_width).1
        (fill_stroke_attrs fill (make_typst_color style.color) style.stroke_width).2),
     DrawResult.ok)

/-- Mirrors draw_text, src/src/lib.rs lines 299-390.  The font size is the
style size divided by 1.24; the content is the escaped text wrapped by the
horizontal alignment strategy. -/
def draw_text (text : String) (style : TextStyle) (pos : ℤ × ℤ)
    (tb : TypstBackend) : TypstBackend × DrawResult :=
  if style.color.alpha = 0 then (tb, DrawResult.ok)
  else
    (tb.write_command
      (Cmd.text pos (rotation_attr_of style.transform) (style.size / (124 / 100))
        (make_typst_color style.color) (font_weight_of style.style)
        (font_slant_of style.style) (font_family_of style.family)
        (edges_of style.anchor.v_pos).1 (edges_of style.anchor.v_pos).2
        (aligned_text style.anchor.h_pos (escape_text text))
        (rotation_close_of style.transform)),
     DrawResult.ok)

/-- Mirrors blit_bitmap, src/src/lib.rs lines 392-427.  The png argument
abstracts the external image crate PNG encoder invoked at lines 406-415:
its Except value mirrors the Result that the source propagates with the
question mark operator, wrapping the encoder message.  On success the PNG
bytes are base64 encoded and embedded. -/
def blit_bitmap (pos : ℤ × ℤ) (wh : ℕ × ℕ) (png : Except String (List ℕ))
    (tb : TypstBackend) : TypstBackend × DrawResult :=
  match png with
  | Except.error e => (tb, DrawResult.drawingError (("Image error: ") ++ e))
  | Except.ok data =>
    (tb.write_command (Cmd.image pos (String.mk (base64_encode data)) wh.1 wh.2),
     DrawResult.ok)

instance {ε α : Type} [DecidableEq ε] [DecidableEq α] : DecidableEq (Except ε α)
  | Except.error e, Except.error f =>
    if h : e = f then Decidable.isTrue (congrArg Except.error h)
    else Decidable.isFalse (fun hh => h (Except.error.inj hh))
  | Except.error _, Except.ok _ => Decidable.isFalse (fun hh => Except.noConfusion hh)
  | Except.ok _, Except.error _ => Decidable.isFalse (fun hh => Except.noConfusion hh)
  | Except.ok a, Except.ok b =>
    if h : a = b then Decidable.isTrue (congrArg Except.ok h)
    else Decidable.isFalse (fun hh => h (Except.ok.inj hh))

/-- One operation issued against the backend after construction.  The
present operation carries the abstract outcome of the file system calls it
performs. -/
inductive Op where
  | pixel (p : ℤ × ℤ) (c : BackendColor)
  | line (f t : ℤ × ℤ) (s : Style)
  | rect (ul br : ℤ × ℤ) (s : Style) (fill : Bool)
  | path (pts : List (ℤ × ℤ)) (s : Style)
  | polygon (pts : List (ℤ × ℤ)) (s : Style)
  | circle (c : ℤ × ℤ) (r : ℕ) (s : Style) (fill : Bool)
  | text (t : String) (s : TextStyle) (pos : ℤ × ℤ)
  | blit (pos : ℤ × ℤ) (wh : ℕ × ℕ) (png : Except String (List ℕ))
  | present (io : Bool)
deriving DecidableEq

/-- The state transition of one operation. -/
def applyOp : Op → TypstBackend → TypstBackend
  | Op.pixel p c, tb => (draw_pixel p c tb).1
  | Op.line f t s, tb => (draw_line f t s tb).1
  | Op.rect ul br s fill, tb => (draw_rect ul br s fill tb).1
  | Op.path pts s, tb => (draw_path pts s tb).1
  | Op.polygon pts s, tb => (fill_polygon pts s tb).1
  | Op.circle c r s fill, tb => (draw_circle c r s fill tb).1
  | Op.text t s pos, tb => (draw_text t s pos tb).1
  | Op.blit pos wh png, tb => (blit_bitmap pos wh png tb).1
  | Op.present io, tb => (present io tb).1

/-- Run a sequence of operations against a backend state. -/
def run (tb : TypstBackend) (ops : List Op) : TypstBackend :=
  ops.foldl (fun s op => applyOp op s) tb

/-- Whether an operation is the finalize operation. -/
def Op.isPresent : Op → Bool
  | Op.present _ => true
  | _ => false

/-- The commands a draw_line call appends. -/
def lineCmds (f t : ℤ × ℤ) (style : Style) : List Cmd :=
  if style.color.alpha = 0 then []
  else [Cmd.line f (t.1 - f.1) (t.2 - f.2) style.stroke_width (make_typst_color style.color)]

/-- The commands each non-present operation appends; draw operations read no
state, they only append. -/
def emitted : Op → List Cmd
  | Op.pixel p c =>
    if c.alpha = 0 then [] else [Cmd.pixel p (make_typst_color c)]
  | Op.line f t s => lineCmds f t s
  | Op.rect ul br s fill =>
    if s.color.alpha = 0 then []
    else [Cmd.rect ul (br.1 - ul.1) (br.2 - ul.2)
      (fill_stroke_attrs fill (make_typst_color s.color) s.stroke_width).1
      (fill_stroke_attrs fill (make_typst_color s.color) s.stroke_width).2]
  | Op.path pts s =>
    if s.color.alpha = 0 then []
    else if pts.length < 2 then []
    else (pairsOf pts).flatMap (fun pq => lineCmds pq.1 pq.2 s)
  | Op.polygon pts s =>
    if s.color.alpha = 0 then []
    else if pts = [] then []
    else [Cmd.polygon (make_typst_color s.color) pts]
  | Op.circle c r s fill =>
    if s.color.alpha = 0 then []
    else [Cmd.circle (c.1 - (r : ℤ), c.2 - (r : ℤ)) r
      (fill_stroke_attrs fill (make_typst_color s.color) s.stroke_width).1
      (fill_stroke_attrs fill (make_typst_color s.color) s.stroke_width).2]
  | Op.text t s pos =>
    if s.color.alpha = 0 then []
    else [Cmd.text pos (rotation_attr_of s.transform) (s.size / (124 / 100))
      (make_typst_color s.color) (font_weight_of s.style) (font_slant_of s.style)
      (font_family_of s.family) (edges_of s.anchor.v_pos).1 (edges_of s.anchor.v_pos).2
      (aligned_text s.anchor.h_pos (escape_text t)) (rotation_close_of s.transform)]
  | Op.blit pos wh png =>
    match png with
    | Except.error _ => []
    | Except.ok data => [Cmd.image pos (String.mk (base64_encode data)) wh.1 wh.2]
  | Op.present _ => []

/-- Whether a command is the opening container command. -/
def isOpenCmd : Cmd → Bool
  | Cmd.openBox _ _ => true
  | _ => false

/-- Whether a command is the closing container command. -/
def isCloseCmd : Cmd → Bool
  | Cmd.close => true
  | _ => false

/-- All present operations in the sequence carry a successful file system
outcome (automatic when the target is a caller-owned buffer, which performs
no file system call). -/
def presOkAll (isFile : Bool) (ops : List Op) : Bool :=
  ops.all (fun op => match op with
    | Op.present io => io || !isFile
    | _ => true)

/-- The sequence consists of present operations only. -/
def onlyPresents (ops : List Op) : Bool := ops.all Op.isPresent

/-- No draw operation occurs after the first present operation. -/
def noDrawAfterPresent : List Op → Bool
  | [] => true
  | op :: rest => if op.isPresent then onlyPresents rest else noDrawAfterPresent rest

/-- The sequence contains a present operation. -/
def hasPresent (ops : List Op) : Bool := ops.any Op.isPresent

/-- The container invariant: the buffer is the opening command followed by
commands among which no further opening command occurs, the closing command
count matches the saved flag, and once saved the buffer ends with the
closing command. -/
def canvasInv (sz : ℕ × ℕ) (s : TypstBackend) : Prop :=
  (∃ r, s.buf = Cmd.openBox sz.1 sz.2 :: r ∧ r.countP isOpenCmd = 0) ∧
  s.buf.countP isCloseCmd = (if s.saved then 1 else 0) ∧
  (s.saved = true → s.buf.getLast? = some Cmd.close)

/-- The part of the container invariant that holds for every operation
sequence with successful presents, draws after finalize included: the
buffer is the opening command followed by commands among which no further
opening command occurs, and the closing command count matches the saved
flag. -/
def weakCanvasInv (sz : ℕ × ℕ) (s : TypstBackend) : Prop :=
  (∃ r, s.buf = Cmd.openBox sz.1 sz.2 :: r ∧ r.countP isOpenCmd = 0) ∧
  s.buf.countP isCloseCmd = (if s.saved then 1 else 0)

/-- Rust f64 atan2: the angle of the point (x, y), mirrors the quadrant
conventions of the standard atan2 function used at src/src/lib.rs line
169. -/
noncomputable def atan2 (y x : ℝ) : ℝ :=
  if 0 < x then Real.arctan (y / x)
  else if x < 0 then
    (if 0 ≤ y then Real.arctan (y / x) + Real.pi else Real.arctan (y / x) - Real.pi)
  else if 0 < y then Real.pi / 2
  else if y < 0 then -(Real.pi / 2)
  else 0

/-- Radians to degrees, mirrors to_degrees at src/src/lib.rs line 169. -/
noncomputable def toDegrees (r : ℝ) : ℝ := r * 180 / Real.pi

/-- The Euclidean length the source formats into a line command
(src/src/lib.rs line 168), as a function of the integer offsets. -/
noncomputable def lineLength (dx dy : ℤ) : ℝ :=
  Real.sqrt ((dx : ℝ) ^ 2 + (dy : ℝ) ^ 2)

/-- The angle in degrees the source formats into a line command
(src/src/lib.rs line 169), as a function of the integer offsets. -/
noncomputable def lineAngleDeg (dx dy : ℤ) : ℝ :=
  toDegrees (atan2 (dy : ℝ) (dx : ℝ))

theorem draw_line_fst (f t : ℤ × ℤ) (s : Style) (tb : TypstBackend) :
    (draw_line f t s tb).1 = { tb with buf := tb.buf ++ lineCmds f t s } := by
  by_cases h : s.color.alpha = 0 <;>
    simp [draw_line, lineCmds, h, TypstBackend.write_command]

theorem foldl_lineCmds (s : Style) :
    ∀ (ps : List ((ℤ × ℤ) × (ℤ × ℤ))) (tb : TypstBackend),
      ps.foldl (fun acc pq => (draw_line pq.1 pq.2 s acc).1) tb =
        { tb with buf := tb.buf ++ ps.flatMap (fun pq => lineCmds pq.1 pq.2 s) }
  | [], tb => by simp
  | pq :: rest, tb => by
    rw [List.foldl_cons, draw_line_fst, foldl_lineCmds s rest]
    simp [List.append_assoc]

theorem pairsOf_length : ∀ l : List (ℤ × ℤ), (pairsOf l).length = l.length - 1
  | [] => rfl
  | [_] => rfl
  | a :: b :: rest => by
    rw [pairsOf]
    simp [pairsOf_length (b :: rest)]

theorem applyOp_eq_emitted (op : Op) (h : op.isPresent = false) (tb : TypstBackend) :
    applyOp op tb = { tb with buf := tb.buf ++ emitted op } := by
  cases op with
  | pixel p c =>
    by_cases hc : c.alpha = 0 <;>
      simp [applyOp, draw_pixel, emitted, hc, TypstBackend.write_command]
  | line f t s =>
    by_cases hs : s.color.alpha = 0 <;>
      simp [applyOp, draw_line, emitted, lineCmds, hs, TypstBackend.write_command]
  | rect ul br s fl =>
    by_cases hs : s.color.alpha = 0 <;>
      simp [applyOp, draw_rect, emitted, hs, TypstBackend.write_command]
  | path pts s =>
    by_cases hs : s.color.alpha = 0
    · simp [applyOp, draw_path, emitted, hs]
    · by_cases hl : pts.length < 2
      · simp [applyOp, draw_path, emitted, hs, hl]
      · simp [applyOp, draw_path, emitted, hs, hl, foldl_lineCmds]
  | polygon pts s =>
    by_cases hs : s.color.alpha = 0
    · simp [applyOp, fill_polygon, emitted, hs]
    · by_cases he : pts = [] <;>
        simp [applyOp, fill_polygon, emitted, hs, he, TypstBackend.write_command]
  | circle c r s fl =>
    by_cases hs : s.color.alpha = 0 <;>
      simp [applyOp, draw_circle, emitted, hs, TypstBackend.write_command]
  | text t s pos =>
    by_cases hs : s.color.alpha = 0 <;>
      simp [applyOp, draw_text, emitted, hs, TypstBackend.write_command]
  | blit pos wh png =>
    cases png <;> simp [applyOp, blit_bitmap, emitted, TypstBackend.write_command]
  | present io => simp [Op.isPresent] at h

theorem lineCmds_not_open_close (f t : ℤ × ℤ) (s : Style) :
    ∀ c ∈ lineCmds f t s, isOpenCmd c = false ∧ isCloseCmd c = false := by
  intro c hc
  rw [lineCmds] at hc
  split at hc
  · simp at hc
  · simp at hc
    subst hc
    exact ⟨rfl, rfl⟩

theorem emitted_not_open_close (op : Op) :
    ∀ c ∈ emitted op, isOpenCmd c = false ∧ isCloseCmd c = false := by
  intro c hc
  cases op with
  | pixel p col =>
    simp only [emitted] at hc
    split at hc
    · simp at hc
    · simp at hc; subst hc; exact ⟨rfl, rfl⟩
  | line f t s => exact lineCmds_not_open_close f t s c hc
  | rect ul br s fl =>
    simp only [emitted] at hc
    split at hc
    · simp at hc
    · simp at hc; subst hc; exact ⟨rfl, rfl⟩
  | path pts s =>
    simp only [emitted] at hc
    split at hc
    · simp at hc
    · split at hc
      · simp at hc
      · obtain ⟨pq, _, hcl⟩ := List.mem_flatMap.mp hc
        exact lineCmds_not_open_close pq.1 pq.2 s c hcl
  | polygon pts s =>
    simp only [emitted] at hc
    split at hc
    · simp at hc
    · split at hc
      · simp at hc
      · simp at hc; subst hc; exact ⟨rfl, rfl⟩
  | circle c0 r s fl =>
    simp only [emitted] at hc
    split at hc
    · simp at hc
    · simp at hc; subst hc; exact ⟨rfl, rfl⟩
  | text t s pos =>
    simp only [emitted] at hc
    split at hc
    · simp at hc
    · simp at hc; subst hc; exact ⟨rfl, rfl⟩
  | blit pos wh png =>
    simp only [emitted] at hc
    cases png
    · simp at hc
    · simp at hc; subst hc; exact ⟨rfl, rfl⟩
  | present io => simp [emitted] at hc

theorem emitted_countP_open (op : Op) : (emitted op).countP isOpenCmd = 0 :=
  List.countP_eq_zero.mpr fun c hc => by
    simp [(emitted_not_open_close op c hc).1]

theorem emitted_countP_close (op : Op) : (emitted op).countP isCloseCmd = 0 :=
  List.countP_eq_zero.mpr fun c hc => by
    simp [(emitted_not_open_close op c hc).2]

theorem present_saved (tb : TypstBackend) (io : Bool) (h : tb.saved = true) :
    present io tb = (tb, DrawResult.ok) := by
  simp [present, h]

theorem present_ok_state (tb : TypstBackend) (io : Bool)
    (hok : io = true ∨ tb.targetIsFile = false) (h : tb.saved = false) :
    present io tb =
      ({ targetIsFile := tb.targetIsFile, buf := tb.buf ++ [Cmd.close],
         size := tb.size, saved := true }, DrawResult.ok) := by
  rcases hok with h1 | h1 <;>
    by_cases hf : tb.targetIsFile = true <;>
      simp_all [present, TypstBackend.write_command]

theorem run_cons (op : Op) (ops : List Op) (tb : TypstBackend) :
    run tb (op :: ops) = run (applyOp op tb) ops := rfl

theorem run_onlyPresents (ops : List Op) (tb : TypstBackend)
    (hs : tb.saved = true) (h : onlyPresents ops = true) : run tb ops = tb := by
  induction ops with
  | nil => rfl
  | cons op rest ih =>
    simp [onlyPresents] at h
    obtain ⟨h1, h2⟩ := h
    cases op with
    | present io =>
      rw [run_cons]
      have : applyOp (Op.present io) tb = tb := by
        simp [applyOp, present_saved tb io hs]
      rw [this]
      exact ih (by simpa [onlyPresents] using h2)
    | pixel p c => simp [Op.isPresent] at h1
    | line f t s => simp [Op.isPresent] at h1
    | rect ul br s fl => simp [Op.isPresent] at h1
    | path pts s => simp [Op.isPresent] at h1
    | polygon pts s => simp [Op.isPresent] at h1
    | circle c r s fl => simp [Op.isPresent] at h1
    | text t s pos => simp [Op.isPresent] at h1
    | blit pos wh png => simp [Op.isPresent] at h1

theorem run_inv (sz : ℕ × ℕ) :
    ∀ (ops : List Op) (tb : TypstBackend),
      presOkAll tb.targetIsFile ops = true → noDrawAfterPresent ops = true →
      tb.saved = false → canvasInv sz tb →
      canvasInv sz (run tb ops) ∧
        (hasPresent ops = true → (run tb ops).saved = true) := by
  intro ops
  induction ops with
  | nil =>
    intro tb _ _ _ hinv
    exact ⟨hinv, by simp [hasPresent]⟩
  | cons op rest ih =>
    intro tb hok hwf hs hinv
    by_cases hp : op.isPresent = true
    · cases op with
      | present io =>
        have hio : io = true ∨ tb.targetIsFile = false := by
          simp [presOkAll] at hok
          rcases hok.1 with h | h
          · exact Or.inl h
          · exact Or.inr h
        have h1 : applyOp (Op.present io) tb =
            { targetIsFile := tb.targetIsFile, buf := tb.buf ++ [Cmd.close],
              size := tb.size, saved := true } := by
          rw [applyOp, present_ok_state tb io hio hs]
        obtain ⟨⟨r, hr, hro⟩, hcnt, _⟩ := hinv
        have honly : onlyPresents rest = true := by
          simpa [noDrawAfterPresent, Op.isPresent] using hwf
        have hrun : run tb (Op.present io :: rest) =
            { targetIsFile := tb.targetIsFile, buf := tb.buf ++ [Cmd.close],
              size := tb.size, saved := true } := by
          rw [run_cons, h1]
          exact run_onlyPresents rest _ rfl honly
        refine ⟨⟨⟨r ++ [Cmd.close], ?_, ?_⟩, ?_, ?_⟩, fun _ => by rw [hrun]⟩
        · rw [hrun]; simp [hr]
        · simp [List.countP_append, hro, isOpenCmd]
        · rw [hrun]; simp [List.countP_append, hcnt, hs, isCloseCmd]
        · intro _
          rw [hrun]
          exact List.getLast?_concat (l := tb.buf)
      | pixel p c => simp [Op.isPresent] at hp
      | line f t s => simp [Op.isPresent] at hp
      | rect ul br s fl => simp [Op.isPresent] at hp
      | path pts s => simp [Op.isPresent] at hp
      | polygon pts s => simp [Op.isPresent] at hp
      | circle c r s fl => simp [Op.isPresent] at hp
      | text t s pos => simp [Op.isPresent] at hp
      | blit pos wh png => simp [Op.isPresent] at hp
    · have hp' : op.isPresent = false := by simpa using hp
      have h1 : applyOp op tb = { tb with buf := tb.buf ++ emitted op } :=
        applyOp_eq_emitted op hp' tb
      obtain ⟨⟨r, hr, hro⟩, hcnt, _⟩ := hinv
      have hinv1 : canvasInv sz { tb with buf := tb.buf ++ emitted op } := by
        refine ⟨⟨r ++ emitted op, by simp [hr], ?_⟩, ?_, ?_⟩
        · simp [List.countP_append, hro, emitted_countP_open]
        · simp [List.countP_append, hcnt, emitted_countP_close]
        · intro hsv
          exact absurd hsv (by simp [hs])
      have hok1 : presOkAll tb.targetIsFile rest = true := by
        simp [presOkAll] at hok ⊢
        exact hok.2
      have hwf1 : noDrawAfterPresent rest = true := by
        simpa [noDrawAfterPresent, hp'] using hwf
      have := ih { tb with buf := tb.buf ++ emitted op } hok1 hwf1 (by simp [hs]) hinv1
      rw [run_cons, h1]
      refine ⟨this.1, fun hhp => this.2 ?_⟩
      have heq : hasPresent (op :: rest) = hasPresent rest := by
        simp only [hasPresent, List.any_cons, hp', Bool.false_or]
      rw [heq] at hhp
      exact hhp

theorem flatMap_singleton_eq_map {α β : Type} (g : α → β) :
    ∀ l : List α, (l.flatMap fun x => [g x]) = l.map g
  | [] => rfl
  | a :: l => by simp [flatMap_singleton_eq_map g l]

/-- Claim C2 (confirmed): every one of the seven draw operations invoked
with a fully transparent color returns Ok and leaves the backend state
untouched, and a run containing such a call is byte-identical to the run
with that call omitted. -/
theorem c2_alpha_zero_noop (p q : ℤ × ℤ) (c : BackendColor) (s : Style)
    (ts : TextStyle) (pts : List (ℤ × ℤ)) (r : ℕ) (fl : Bool) (txt : String)
    (tb : TypstBackend) (ops1 ops2 : List Op)
    (hc : c.alpha = 0) (hs : s.color.alpha = 0) (hts : ts.color.alpha = 0) :
    (draw_pixel p c tb = (tb, DrawResult.ok) ∧
     draw_line p q s tb = (tb, DrawResult.ok) ∧
     draw_rect p q s fl tb = (tb, DrawResult.ok) ∧
     draw_path pts s tb = (tb, DrawResult.ok) ∧
     fill_polygon pts s tb = (tb, DrawResult.ok) ∧
     draw_circle p r s fl tb = (tb, DrawResult.ok) ∧
     draw_text txt ts p tb = (tb, DrawResult.ok)) ∧
    (run tb (ops1 ++ Op.pixel p c :: ops2) = run tb (ops1 ++ ops2) ∧
     run tb (ops1 ++ Op.line p q s :: ops2) = run tb (ops1 ++ ops2) ∧
     run tb (ops1 ++ Op.rect p q s fl :: ops2) = run tb (ops1 ++ ops2) ∧
     run tb (ops1 ++ Op.path pts s :: ops2) = run tb (ops1 ++ ops2) ∧
     run tb (ops1 ++ Op.polygon pts s :: ops2) = run tb (ops1 ++ ops2) ∧
     run tb (ops1 ++ Op.circle p r s fl :: ops2) = run tb (ops1 ++ ops2) ∧
     run tb (ops1 ++ Op.text txt ts p :: ops2) = run tb (ops1 ++ ops2)) := by
  have hrun : ∀ (op : Op), (∀ x : TypstBackend, applyOp op x = x) →
      run tb (ops1 ++ op :: ops2) = run tb (ops1 ++ ops2) := by
    intro op hid
    simp [run, List.foldl_append, hid]
  refine ⟨⟨?_, ?_, ?_, ?_, ?_, ?_, ?_⟩, ?_, ?_, ?_, ?_, ?_, ?_, ?_⟩
  · simp [draw_pixel, hc]
  · simp [draw_line, hs]
  · simp [draw_rect, hs]
  · simp [draw_path, hs]
  · simp [fill_polygon, hs]
  · simp [draw_circle, hs]
  · simp [draw_text, hts]
  · exact hrun _ (fun x => by simp [applyOp, draw_pixel, hc])
  · exact hrun _ (fun x => by simp [applyOp, draw_line, hs])
  · exact hrun _ (fun x => by simp [applyOp, draw_rect, hs])
  · exact hrun _ (fun x => by simp [applyOp, draw_path, hs])
  · exact hrun _ (fun x => by simp [applyOp, fill_polygon, hs])
  · exact hrun _ (fun x => by simp [applyOp, draw_circle, hs])
  · exact hrun _ (fun x => by simp [applyOp, draw_text, hts])

/-- Witness for C2 at a concrete transparent color, style and run. -/
theorem c2_alpha_zero_noop_witness :
    draw_pixel (3, 4) ⟨0, (10, 20, 30)⟩ (mk_backend false (5, 5)) =
      (mk_backend false (5, 5), DrawResult.ok) :=
  ((c2_alpha_zero_noop (3, 4) (6, 7) ⟨0, (10, 20, 30)⟩ ⟨⟨0, (1, 2, 3)⟩, 1⟩
    ⟨⟨0, (1, 2, 3)⟩, 12, ("serif"), FontStyle.normal, FontTransform.none,
      ⟨HPos.left, VPos.top⟩⟩ [] 2 true ("hi") (mk_backend false (5, 5)) [] []
    (by decide) (by decide) (by decide)).1).1

/-- Claim C4 as stated is false on the code: blit_bitmap propagates a PNG
encoder failure as an error from the draw call itself (the question mark at
src/src/lib.rs lines 410-415), so not every draw call is infallible. -/
theorem c4_counterexample :
    (blit_bitmap (0, 0) (1, 1) (Except.error ("png size mismatch"))
      (mk_backend true (1, 1))).2 ≠ DrawResult.ok := by
  decide

/-- Claim C4 (amended): the seven shape and text draw calls return Ok on
every input; blit_bitmap returns Ok exactly when the PNG encoder succeeds
and otherwise surfaces the wrapped encoder error; the file system is only
touched by present. -/
theorem c4_amended_infallible :
    (∀ (p : ℤ × ℤ) (c : BackendColor) (tb : TypstBackend),
      (draw_pixel p c tb).2 = DrawResult.ok) ∧
    (∀ (p q : ℤ × ℤ) (s : Style) (tb : TypstBackend),
      (draw_line p q s tb).2 = DrawResult.ok) ∧
    (∀ (p q : ℤ × ℤ) (s : Style) (fl : Bool) (tb : TypstBackend),
      (draw_rect p q s fl tb).2 = DrawResult.ok) ∧
    (∀ (pts : List (ℤ × ℤ)) (s : Style) (tb : TypstBackend),
      (draw_path pts s tb).2 = DrawResult.ok) ∧
    (∀ (pts : List (ℤ × ℤ)) (s : Style) (tb : TypstBackend),
      (fill_polygon pts s tb).2 = DrawResult.ok) ∧
    (∀ (p : ℤ × ℤ) (r : ℕ) (s : Style) (fl : Bool) (tb : TypstBackend),
      (draw_circle p r s fl tb).2 = DrawResult.ok) ∧
    (∀ (txt : String) (ts : TextStyle) (p : ℤ × ℤ) (tb : TypstBackend),
      (draw_text txt ts p tb).2 = DrawResult.ok) ∧
    (∀ (p : ℤ × ℤ) (wh : ℕ × ℕ) (d : List ℕ) (tb : TypstBackend),
      (blit_bitmap p wh (Except.ok d) tb).2 = DrawResult.ok) ∧
    (∀ (p : ℤ × ℤ) (wh : ℕ × ℕ) (e : String) (tb : TypstBackend),
      (blit_bitmap p wh (Except.error e) tb).2 =
        DrawResult.drawingError (("Image error: ") ++ e)) := by
  refine ⟨?_, ?_, ?_, ?_, ?_, ?_, ?_, ?_, ?_⟩
  · intro p c tb; unfold draw_pixel; split <;> rfl
  · intro p q s tb; unfold draw_line; split <;> rfl
  · intro p q s fl tb; unfold draw_rect; split <;> rfl
  · intro pts s tb
    unfold draw_path
    split
    · rfl
    · split <;> rfl
  · intro pts s tb
    unfold fill_polygon
    split
    · rfl
    · split <;> rfl
  · intro p r s fl tb; unfold draw_circle; split <;> rfl
  · intro txt ts p tb; unfold draw_text; split <;> rfl
  · intro p wh d tb; rfl
  · intro p wh e tb; rfl

/-- Claim C6 (confirmed): with a non transparent style and at least two
points, draw_path is exactly the successive draw_line calls on consecutive
pairs, it appends one line command per pair, and the number of appended
commands is the number of points minus one. -/
theorem c6_path_decomposition (pts : List (ℤ × ℤ)) (s : Style)
    (tb : TypstBackend) (h1 : s.color.alpha ≠ 0) (h2 : 2 ≤ pts.length) :
    draw_path pts s tb =
      ((pairsOf pts).foldl (fun acc pq => (draw_line pq.1 pq.2 s acc).1) tb,
        DrawResult.ok) ∧
    (draw_path pts s tb).1.buf =
      tb.buf ++ (pairsOf pts).map (fun pq =>
        Cmd.line pq.1 (pq.2.1 - pq.1.1) (pq.2.2 - pq.1.2) s.stroke_width
          (make_typst_color s.color)) ∧
    (draw_path pts s tb).1.buf.length = tb.buf.length + (pts.length - 1) := by
  have e1 : draw_path pts s tb =
      ((pairsOf pts).foldl (fun acc pq => (draw_line pq.1 pq.2 s acc).1) tb,
        DrawResult.ok) := by
    unfold draw_path
    rw [if_neg h1, if_neg (by omega)]
  have e2 : (pairsOf pts).flatMap (fun pq => lineCmds pq.1 pq.2 s) =
      (pairsOf pts).map (fun pq =>
        Cmd.line pq.1 (pq.2.1 - pq.1.1) (pq.2.2 - pq.1.2) s.stroke_width
          (make_typst_color s.color)) := by
    have hl : ∀ pq : (ℤ × ℤ) × (ℤ × ℤ), lineCmds pq.1 pq.2 s =
        [Cmd.line pq.1 (pq.2.1 - pq.1.1) (pq.2.2 - pq.1.2) s.stroke_width
          (make_typst_color s.color)] := fun pq => by simp [lineCmds, h1]
    simp only [hl]
    exact flatMap_singleton_eq_map _ _
  refine ⟨e1, ?_, ?_⟩
  · rw [e1, foldl_lineCmds, e2]
  · rw [e1, foldl_lineCmds, e2]
    simp [pairsOf_length]

/-- Witness for C6 on a concrete three point path. -/
theorem c6_path_decomposition_witness :
    (draw_path [(0, 0), (1, 0), (1, 1)] ⟨⟨1, (9, 9, 9)⟩, 2⟩
      (mk_backend false (5, 5))).1.buf.length =
      (mk_backend false (5, 5)).buf.length + (([(0, 0), (1, 0), (1, 1)] :
        List (ℤ × ℤ)).length - 1) :=
  (c6_path_decomposition [(0, 0), (1, 0), (1, 1)] ⟨⟨1, (9, 9, 9)⟩, 2⟩
    (mk_backend false (5, 5)) (by decide) (by decide)).2.2

/-- Claim C10 (confirmed): the serialized color is rgb(r, g, b) exactly
when alpha is at least one, and rgb(r, g, b, p%) when alpha is below one,
where p is alpha times 100 truncated toward zero as a u32 cast does; the
truncation sends 0.999 to 99 and any negative alpha to 0. -/
theorem c10_color_serialization (c : BackendColor) :
    (1 ≤ c.alpha → make_typst_color c =
      ("rgb(") ++ toString c.rgb.1 ++ (", ") ++ toString c.rgb.2.1 ++ (", ")
        ++ toString c.rgb.2.2 ++ (")")) ∧
    (c.alpha < 1 → make_typst_color c =
      ("rgb(") ++ toString c.rgb.1 ++ (", ") ++ toString c.rgb.2.1 ++ (", ")
        ++ toString c.rgb.2.2 ++ (", ")
        ++ toString (rustCastU32 (c.alpha * 100)) ++ ("%)")) ∧
    rustCastU32 ((999 / 1000 : ℚ) * 100) = 99 ∧
    (c.alpha < 0 → rustCastU32 (c.alpha * 100) = 0) := by
  refine ⟨?_, ?_, ?_, ?_⟩
  · intro h
    rw [make_typst_color, if_neg (not_lt.mpr h)]
  · intro h
    rw [make_typst_color, if_pos h]
  · have hf : (Int.floor ((999 : ℚ) / 1000 * 100)) = 99 := by norm_num
    rw [rustCastU32, hf]
    rfl
  · intro h
    have h1 : c.alpha * 100 < 0 := mul_neg_of_neg_of_pos h (by norm_num)
    have h2 : (Int.floor (c.alpha * 100)) ≤ 0 := Int.floor_nonpos h1.le
    simp [rustCastU32, Int.toNat_of_nonpos h2]

/-- Witness for C10 at alpha one half. -/
theorem c10_color_serialization_witness :
    make_typst_color ⟨(1 : ℚ) / 2, (1, 2, 3)⟩ =
      ("rgb(") ++ toString (1 : ℕ) ++ (", ") ++ toString (2 : ℕ) ++ (", ")
        ++ toString (3 : ℕ) ++ (", ")
        ++ toString (rustCastU32 ((1 : ℚ) / 2 * 100)) ++ ("%)") :=
  (c10_color_serialization ⟨(1 : ℚ) / 2, (1, 2, 3)⟩).2.1 (by norm_num)

/-- Claim C1 as stated is false on the code: a draw call issued after
present appends its command after the closing container command, so the
output no longer ends with the closing command; and when present fails on
the file system, the saved flag is never set and a repeated present emits
the closing command a second time. -/
theorem c1_counterexample :
    (run (mk_backend true (5, 5))
        [Op.present true, Op.pixel (0, 0) ⟨1, (0, 0, 0)⟩]).buf.getLast? ≠
      some Cmd.close ∧
    (run (mk_backend true (5, 5))
        [Op.present false, Op.present false]).buf.countP isCloseCmd = 2 := by
  decide

theorem run_weakInv (sz : ℕ × ℕ) :
    ∀ (ops : List Op) (tb : TypstBackend),
      presOkAll tb.targetIsFile ops = true → weakCanvasInv sz tb →
      weakCanvasInv sz (run tb ops) := by
  intro ops
  induction ops with
  | nil => intro tb _ hinv; exact hinv
  | cons op rest ih =>
    intro tb hok hinv
    obtain ⟨⟨r, hr, hro⟩, hcnt⟩ := hinv
    have hok1 : presOkAll tb.targetIsFile rest = true := by
      simp [presOkAll] at hok ⊢
      exact hok.2
    by_cases hp : op.isPresent = true
    · cases op with
      | present io =>
        have hio : io = true ∨ tb.targetIsFile = false := by
          simp [presOkAll] at hok
          rcases hok.1 with h | h
          · exact Or.inl h
          · exact Or.inr h
        by_cases hs : tb.saved = true
        · have h1 : applyOp (Op.present io) tb = tb := by
            simp [applyOp, present_saved tb io hs]
          rw [run_cons, h1]
          exact ih tb hok1 ⟨⟨r, hr, hro⟩, hcnt⟩
        · have hs' : tb.saved = false := by simpa using hs
          have h1 : applyOp (Op.present io) tb =
              { targetIsFile := tb.targetIsFile, buf := tb.buf ++ [Cmd.close],
                size := tb.size, saved := true } := by
            rw [applyOp, present_ok_state tb io hio hs']
          rw [run_cons, h1]
          refine ih _ hok1 ⟨⟨r ++ [Cmd.close], by simp [hr], ?_⟩, ?_⟩
          · simp [List.countP_append, hro, isOpenCmd]
          · simp [List.countP_append, hcnt, hs', isCloseCmd]
      | pixel p c => simp [Op.isPresent] at hp
      | line f t s => simp [Op.isPresent] at hp
      | rect ul br s fl => simp [Op.isPresent] at hp
      | path pts s => simp [Op.isPresent] at hp
      | polygon pts s => simp [Op.isPresent] at hp
      | circle c r s fl => simp [Op.isPresent] at hp
      | text t s pos => simp [Op.isPresent] at hp
      | blit pos wh png => simp [Op.isPresent] at hp
    · have hp' : op.isPresent = false := by simpa using hp
      have h1 : applyOp op tb = { tb with buf := tb.buf ++ emitted op } :=
        applyOp_eq_emitted op hp' tb
      rw [run_cons, h1]
      refine ih _ hok1 ⟨⟨r ++ emitted op, by simp [hr], ?_⟩, ?_⟩
      · simp [List.countP_append, hro, emitted_countP_open]
      · simp [List.countP_append, hcnt, emitted_countP_close]

/-- Claim C1 (amended): for every operation sequence in which every present
carries a successful file system outcome, the output begins with exactly one
opening container command and contains at most one closing container
command, draws after finalize included; if moreover no draw call follows
the first present and some present occurs (explicitly or as the implicit
finalize on drop), the output ends with exactly one closing container
command. -/
theorem c1_amended_container (isFile : Bool) (sz : ℕ × ℕ) (ops : List Op)
    (h1 : presOkAll isFile ops = true) :
    (run (mk_backend isFile sz) ops).buf.head? = some (Cmd.openBox sz.1 sz.2) ∧
    (run (mk_backend isFile sz) ops).buf.countP isOpenCmd = 1 ∧
    (run (mk_backend isFile sz) ops).buf.countP isCloseCmd ≤ 1 ∧
    (noDrawAfterPresent ops = true → hasPresent ops = true →
      (run (mk_backend isFile sz) ops).buf.getLast? = some Cmd.close ∧
      (run (mk_backend isFile sz) ops).buf.countP isCloseCmd = 1) := by
  have hinv0w : weakCanvasInv sz (mk_backend isFile sz) := ⟨⟨[], rfl, rfl⟩, rfl⟩
  obtain ⟨⟨r, hr, hro⟩, hcnt⟩ :=
    run_weakInv sz ops (mk_backend isFile sz) h1 hinv0w
  refine ⟨?_, ?_, ?_, ?_⟩
  · rw [hr]; rfl
  · rw [hr]
    simp [List.countP_cons, isOpenCmd, hro]
  · rw [hcnt]
    split <;> omega
  · intro h2 hp
    have hinv0 : canvasInv sz (mk_backend isFile sz) := by
      refine ⟨⟨[], rfl, rfl⟩, rfl,
        fun h => by simp [mk_backend, TypstBackend.write_command] at h⟩
    obtain ⟨⟨_, hcnt2, hlast⟩, hsv⟩ :=
      run_inv sz ops (mk_backend isFile sz) h1 h2 rfl hinv0
    have hsv' := hsv hp
    exact ⟨hlast hsv', by rw [hcnt2, hsv']; rfl⟩

/-- Witness for C1 on a concrete run: one opaque pixel, then a successful
present. -/
theorem c1_amended_container_witness :
    (run (mk_backend true (5, 5))
        [Op.pixel (1, 1) ⟨1, (2, 3, 4)⟩, Op.present true]).buf.head? =
      some (Cmd.openBox 5 5) ∧
    (run (mk_backend true (5, 5))
        [Op.pixel (1, 1) ⟨1, (2, 3, 4)⟩, Op.present true]).buf.countP isOpenCmd = 1 ∧
    (run (mk_backend true (5, 5))
        [Op.pixel (1, 1) ⟨1, (2, 3, 4)⟩, Op.present true]).buf.countP isCloseCmd ≤ 1 ∧
    (noDrawAfterPresent [Op.pixel (1, 1) ⟨1, (2, 3, 4)⟩, Op.present true] = true →
      hasPresent [Op.pixel (1, 1) ⟨1, (2, 3, 4)⟩, Op.present true] = true →
      (run (mk_backend true (5, 5))
          [Op.pixel (1, 1) ⟨1, (2, 3, 4)⟩, Op.present true]).buf.getLast? =
        some Cmd.close ∧
      (run (mk_backend true (5, 5))
          [Op.pixel (1, 1) ⟨1, (2, 3, 4)⟩, Op.present true]).buf.countP isCloseCmd = 1) :=
  c1_amended_container true (5, 5)
    [Op.pixel (1, 1) ⟨1, (2, 3, 4)⟩, Op.present true] (by decide)

/-- Claim C3 as stated is false on the code: when the first present fails
on the file system the saved flag stays false, so a second present appends
the closing command again and is not a no-op returning Ok. -/
theorem c3_counterexample :
    (present false (present false (mk_backend true (4, 4))).1).1.buf =
      [Cmd.openBox 4 4, Cmd.close, Cmd.close] ∧
    (present false (present false (mk_backend true (4, 4))).1).2 ≠
      DrawResult.ok := by
  decide

/-- Claim C3 (amended): whenever a present call returns Ok (always the case
for a buffer backed canvas), any further present call leaves the state
unchanged, touches no file, and returns Ok, so present twice equals present
once. -/
theorem c3_amended_idempotent (tb : TypstBackend) (io1 io2 : Bool)
    (h : (present io1 tb).2 = DrawResult.ok) :
    present io2 (present io1 tb).1 = ((present io1 tb).1, DrawResult.ok) := by
  have hsv : (present io1 tb).1.saved = true := by
    by_cases hs : tb.saved = true
    · simp [present, hs]
    · have hs' : tb.saved = false := by simpa using hs
      by_cases hf : tb.targetIsFile = true
      · by_cases hio : io1 = true
        · simp [present, hs', hf, hio]
        · have hio' : io1 = false := by simpa using hio
          simp [present, hs', hf, hio'] at h
      · have hf' : tb.targetIsFile = false := by simpa using hf
        simp [present, hs', hf']
  exact present_saved _ io2 hsv

/-- Witness for C3 on a concrete buffer backed canvas. -/
theorem c3_amended_idempotent_witness :
    present true (present false (mk_backend false (2, 3))).1 =
      ((present false (mk_backend false (2, 3))).1, DrawResult.ok) :=
  c3_amended_idempotent (mk_backend false (2, 3)) false true (by decide)

/-- Claim C5 as stated is false on the code: after a failed present on a
file backed canvas, retrying present appends a second closing command, so
the retried output differs from the output of a single successful
present. -/
theorem c5_counterexample :
    (present true (present false (mk_backend true (7, 7))).1).1.buf ≠
      (present true (mk_backend true (7, 7))).1.buf := by
  decide

/-- Claim C5 (amended): a failed present on an unfinalized file backed
canvas reports an error and leaves all accumulated commands in the buffer
with the closing command appended once, and the canvas still unfinalized;
retrying with working file system succeeds but appends the closing command
again, so the retried output is the single successful output plus one extra
closing command. -/
theorem c5_amended_failed_present (tb : TypstBackend)
    (hf : tb.targetIsFile = true) (hs : tb.saved = false) :
    (present false tb).2 ≠ DrawResult.ok ∧
    (present false tb).1.buf = tb.buf ++ [Cmd.close] ∧
    (present false tb).1.saved = false ∧
    (present true (present false tb).1).2 = DrawResult.ok ∧
    (present true (present false tb).1).1.buf =
      (present true tb).1.buf ++ [Cmd.close] := by
  simp [present, hf, hs, TypstBackend.write_command]

/-- Witness for C5 on a concrete file backed canvas. -/
theorem c5_amended_failed_present_witness :
    (present false (mk_backend true (7, 7))).2 ≠ DrawResult.ok ∧
    (present false (mk_backend true (7, 7))).1.buf =
      (mk_backend true (7, 7)).buf ++ [Cmd.close] ∧
    (present false (mk_backend true (7, 7))).1.saved = false ∧
    (present true (present false (mk_backend true (7, 7))).1).2 = DrawResult.ok ∧
    (present true (present false (mk_backend true (7, 7))).1).1.buf =
      (present true (mk_backend true (7, 7))).1.buf ++ [Cmd.close] :=
  c5_amended_failed_present (mk_backend true (7, 7)) (by decide) (by decide)

theorem replaceChar_append (p : Char) (rep : List Char) :
    ∀ a b : List Char,
      replaceChar p rep (a ++ b) = replaceChar p rep a ++ replaceChar p rep b
  | [], b => rfl
  | c :: a, b => by
    simp [replaceChar, replaceChar_append p rep a b]

theorem escHead (c : Char) :
    replaceChar '$' ['\\', '$']
      (replaceChar '#' ['\\', '#']
        (replaceChar '"' ['\\', '"']
          (if c = '\\' then ['\\', '\\'] else [c]))) = escChar c := by
  by_cases h1 : c = '\\'
  · subst h1; decide
  rw [if_neg h1]
  by_cases h2 : c = '"'
  · subst h2; decide
  by_cases h3 : c = '#'
  · subst h3; decide
  by_cases h4 : c = '$'
  · subst h4; decide
  simp [replaceChar, escChar, specials, h1, h2, h3, h4]

theorem escapeList_cons (c : Char) (l : List Char) :
    escapeList (c :: l) = escChar c ++ escapeList l := by
  have h0 : replaceChar '\\' ['\\', '\\'] (c :: l) =
      (if c = '\\' then ['\\', '\\'] else [c]) ++ replaceChar '\\' ['\\', '\\'] l := by
    simp [replaceChar]
  rw [escapeList, h0, replaceChar_append, replaceChar_append, replaceChar_append,
    escHead]
  rfl

theorem wellEscaped_append_escChar (c : Char) (rest : List Char)
    (h : wellEscaped rest = true) : wellEscaped (escChar c ++ rest) = true := by
  by_cases hs : c ∈ specials
  · rw [escChar, if_pos hs]
    show wellEscaped ('\\' :: c :: rest) = true
    rw [wellEscaped.eq_def]
    simp [hs, h]
  · rw [escChar, if_neg hs]
    have hc : c ≠ '\\' := fun he => hs (by rw [he]; decide)
    show wellEscaped (c :: rest) = true
    rw [wellEscaped.eq_def]
    simp [hc, hs, h]

theorem wellEscaped_escapeList : ∀ l : List Char, wellEscaped (escapeList l) = true
  | [] => rfl
  | c :: l => by
    rw [escapeList_cons]
    exact wellEscaped_append_escChar c _ (wellEscaped_escapeList l)

/-- Claim C8 (confirmed): escape_text performs exactly the four
replacements (backslash, double quote, hash, dollar each gain a leading
backslash), the escaped text is well escaped, meaning none of the four
characters coming from the input remains without its escaping backslash,
and draw_text applies the escaping to the raw text before the alignment
wrapping, the only other transformation of the text. -/
theorem c8_escaping :
    (∀ s : String, wellEscaped (escape_text s).data = true) ∧
    (escape_text ("\\") = ("\\\\") ∧ escape_text ("\"") = ("\\\"") ∧
     escape_text ("#") = ("\\#") ∧ escape_text ("$") = ("\\$")) ∧
    (∀ (txt : String) (style : TextStyle) (pos : ℤ × ℤ) (tb : TypstBackend),
      style.color.alpha ≠ 0 →
      (draw_text txt style pos tb).1.buf = tb.buf ++
        [Cmd.text pos (rotation_attr_of style.transform)
          (style.size / (124 / 100)) (make_typst_color style.color)
          (font_weight_of style.style) (font_slant_of style.style)
          (font_family_of style.family) (edges_of style.anchor.v_pos).1
          (edges_of style.anchor.v_pos).2
          (aligned_text style.anchor.h_pos (escape_text txt))
          (rotation_close_of style.transform)]) := by
  refine ⟨?_, by decide, ?_⟩
  · intro s
    exact wellEscaped_escapeList s.data
  · intro txt style pos tb h
    simp [draw_text, h, TypstBackend.write_command]

/-- Witness for C8 on a concrete text containing a hash sign. -/
theorem c8_escaping_witness :
    (draw_text ("a#b") ⟨⟨1, (0, 0, 0)⟩, 20, ("sans-serif"), FontStyle.normal,
        FontTransform.none, ⟨HPos.left, VPos.top⟩⟩ (3, 4)
      (mk_backend false (9, 9))).1.buf = (mk_backend false (9, 9)).buf ++
      [Cmd.text (3, 4) (rotation_attr_of FontTransform.none)
        ((20 : ℚ) / (124 / 100)) (make_typst_color ⟨1, (0, 0, 0)⟩)
        (font_weight_of FontStyle.normal) (font_slant_of FontStyle.normal)
        (font_family_of ("sans-serif")) (edges_of VPos.top).1
        (edges_of VPos.top).2 (aligned_text HPos.left (escape_text ("a#b")))
        (rotation_close_of FontTransform.none)] :=
  c8_escaping.2.2 ("a#b") ⟨⟨1, (0, 0, 0)⟩, 20, ("sans-serif"), FontStyle.normal,
    FontTransform.none, ⟨HPos.left, VPos.top⟩⟩ (3, 4)
    (mk_backend false (9, 9)) (by decide)

theorem base64Chars_length : base64Chars.length = 64 := rfl

theorem b64At_mem (i : ℕ) (h : i < 64) : b64At i ∈ base64Chars := by
  have h' : i < base64Chars.length := by rw [base64Chars_length]; exact h
  rw [b64At, List.getD_eq_getElem?_getD, List.getElem?_eq_getElem h']
  simp only [Option.getD_some]
  exact List.getElem_mem h'

theorem b64At_ne_pad (i : ℕ) (h : i < 64) : b64At i ≠ '=' := by
  intro he
  have hm := b64At_mem i h
  rw [he] at hm
  exact absurd hm (by decide)

theorem or_lt_64 (x y : ℕ) (hx : x < 64) (hy : y < 64) : x ||| y < 64 := by
  have h64 : (64 : ℕ) = 2 ^ 6 := rfl
  rw [h64] at hx hy ⊢
  exact Nat.or_lt_two_pow hx hy

theorem b64_idx_a (b : ℕ) (h : b < 256) : b >>> 2 < 64 := by
  rw [Nat.shiftRight_eq_div_pow]
  have h4 : (2 : ℕ) ^ 2 = 4 := rfl
  rw [h4]
  omega

theorem b64_idx_e (a : ℕ) : (a &&& 3) <<< 4 < 64 := by
  have ha : a &&& 3 ≤ 3 := Nat.and_le_right
  rw [Nat.shiftLeft_eq]
  have h16 : (2 : ℕ) ^ 4 = 16 := rfl
  rw [h16]
  omega

theorem b64_idx_f (a : ℕ) : (a &&& 15) <<< 2 < 64 := by
  have ha : a &&& 15 ≤ 15 := Nat.and_le_right
  rw [Nat.shiftLeft_eq]
  have h4 : (2 : ℕ) ^ 2 = 4 := rfl
  rw [h4]
  omega

theorem b64_idx_b (a b : ℕ) (h : b < 256) : ((a &&& 3) <<< 4) ||| (b >>> 4) < 64 := by
  refine or_lt_64 _ _ (b64_idx_e a) ?_
  rw [Nat.shiftRight_eq_div_pow]
  have h16 : (2 : ℕ) ^ 4 = 16 := rfl
  rw [h16]
  omega

theorem b64_idx_c (a b : ℕ) (h : b < 256) : ((a &&& 15) <<< 2) ||| (b >>> 6) < 64 := by
  refine or_lt_64 _ _ (b64_idx_f a) ?_
  rw [Nat.shiftRight_eq_div_pow]
  have h64 : (2 : ℕ) ^ 6 = 64 := rfl
  rw [h64]
  omega

theorem b64_idx_d (b : ℕ) : b &&& 63 < 64 := by
  have hb : b &&& 63 ≤ 63 := Nat.and_le_right
  omega

theorem b64_length (data : List ℕ) :
    (base64_encode data).length = 4 * ((data.length + 2) / 3) := by
  induction data using base64_encode.induct with
  | case1 b1 b2 b3 rest ih =>
    simp only [base64_encode, List.length_cons, ih]
    omega
  | case2 b1 b2 => simp [base64_encode]
  | case3 b1 => simp [base64_encode]
  | case4 => simp [base64_encode]

theorem b64_alphabet (data : List ℕ) (hb : ∀ b ∈ data, b < 256) :
    ∀ c ∈ base64_encode data, c ∈ base64Chars ∨ c = '=' := by
  induction data using base64_encode.induct with
  | case1 b1 b2 b3 rest ih =>
    intro c hc
    have h1 : b1 < 256 := hb b1 (by simp)
    have h2 : b2 < 256 := hb b2 (by simp)
    have h3 : b3 < 256 := hb b3 (by simp)
    simp only [base64_encode, List.mem_cons] at hc
    rcases hc with rfl | rfl | rfl | rfl | hc
    · exact Or.inl (b64At_mem _ (b64_idx_a b1 h1))
    · exact Or.inl (b64At_mem _ (b64_idx_b b1 b2 h2))
    · exact Or.inl (b64At_mem _ (b64_idx_c b2 b3 h3))
    · exact Or.inl (b64At_mem _ (b64_idx_d b3))
    · exact ih (fun b hm => hb b (by simp [hm])) c hc
  | case2 b1 b2 =>
    intro c hc
    have h1 : b1 < 256 := hb b1 (by simp)
    have h2 : b2 < 256 := hb b2 (by simp)
    simp only [base64_encode, List.mem_cons, List.not_mem_nil, or_false] at hc
    rcases hc with rfl | rfl | rfl | rfl
    · exact Or.inl (b64At_mem _ (b64_idx_a b1 h1))
    · exact Or.inl (b64At_mem _ (b64_idx_b b1 b2 h2))
    · exact Or.inl (b64At_mem _ (b64_idx_f b2))
    · exact Or.inr rfl
  | case3 b1 =>
    intro c hc
    have h1 : b1 < 256 := hb b1 (by simp)
    simp only [base64_encode, List.mem_cons, List.not_mem_nil, or_false] at hc
    rcases hc with rfl | rfl | rfl | rfl
    · exact Or.inl (b64At_mem _ (b64_idx_a b1 h1))
    · exact Or.inl (b64At_mem _ (b64_idx_e b1))
    · exact Or.inr rfl
    · exact Or.inr rfl
  | case4 =>
    intro c hc
    simp [base64_encode] at hc

theorem b64_no_pad (data : List ℕ) (hb : ∀ b ∈ data, b < 256)
    (hm : data.length % 3 = 0) : ('=') ∉ base64_encode data := by
  induction data using base64_encode.induct with
  | case1 b1 b2 b3 rest ih =>
    have h1 : b1 < 256 := hb b1 (by simp)
    have h2 : b2 < 256 := hb b2 (by simp)
    have h3 : b3 < 256 := hb b3 (by simp)
    have hm' : rest.length % 3 = 0 := by
      simp only [List.length_cons] at hm
      omega
    intro hmem
    simp only [base64_encode, List.mem_cons] at hmem
    rcases hmem with h | h | h | h | h
    · exact absurd h.symm (b64At_ne_pad _ (b64_idx_a b1 h1))
    · exact absurd h.symm (b64At_ne_pad _ (b64_idx_b b1 b2 h2))
    · exact absurd h.symm (b64At_ne_pad _ (b64_idx_c b2 b3 h3))
    · exact absurd h.symm (b64At_ne_pad _ (b64_idx_d b3))
    · exact ih (fun b hbm => hb b (by simp [hbm])) hm' h
  | case2 b1 b2 => simp at hm
  | case3 b1 => simp at hm
  | case4 => intro hmem; simp [base64_encode] at hmem

theorem b64_pad_two (data : List ℕ) (hb : ∀ b ∈ data, b < 256)
    (hm : data.length % 3 = 2) :
    ∃ p, base64_encode data = p ++ ['='] ∧ ('=') ∉ p := by
  induction data using base64_encode.induct with
  | case1 b1 b2 b3 rest ih =>
    have h1 : b1 < 256 := hb b1 (by simp)
    have h2 : b2 < 256 := hb b2 (by simp)
    have h3 : b3 < 256 := hb b3 (by simp)
    have hm' : rest.length % 3 = 2 := by
      simp only [List.length_cons] at hm
      omega
    obtain ⟨p, hp, hnp⟩ := ih (fun b hbm => hb b (by simp [hbm])) hm'
    refine ⟨b64At (b1 >>> 2) :: b64At (((b1 &&& 3) <<< 4) ||| (b2 >>> 4)) ::
      b64At (((b2 &&& 15) <<< 2) ||| (b3 >>> 6)) :: b64At (b3 &&& 63) :: p, ?_, ?_⟩
    · simp [base64_encode, hp]
    · simp only [List.mem_cons, not_or]
      refine ⟨?_, ?_, ?_, ?_, hnp⟩
      · exact fun h => absurd h.symm (b64At_ne_pad _ (b64_idx_a b1 h1))
      · exact fun h => absurd h.symm (b64At_ne_pad _ (b64_idx_b b1 b2 h2))
      · exact fun h => absurd h.symm (b64At_ne_pad _ (b64_idx_c b2 b3 h3))
      · exact fun h => absurd h.symm (b64At_ne_pad _ (b64_idx_d b3))
  | case2 b1 b2 =>
    have h1 : b1 < 256 := hb b1 (by simp)
    have h2 : b2 < 256 := hb b2 (by simp)
    refine ⟨[b64At (b1 >>> 2), b64At (((b1 &&& 3) <<< 4) ||| (b2 >>> 4)),
      b64At ((b2 &&& 15) <<< 2)], rfl, ?_⟩
    simp only [List.mem_cons, List.not_mem_nil, or_false, not_or]
    refine ⟨?_, ?_, ?_⟩
    · exact fun h => absurd h.symm (b64At_ne_pad _ (b64_idx_a b1 h1))
    · exact fun h => absurd h.symm (b64At_ne_pad _ (b64_idx_b b1 b2 h2))
    · exact fun h => absurd h.symm (b64At_ne_pad _ (b64_idx_f b2))
  | case3 b1 => simp at hm
  | case4 => simp at hm

theorem b64_pad_one (data : List ℕ) (hb : ∀ b ∈ data, b < 256)
    (hm : data.length % 3 = 1) :
    ∃ p, base64_encode data = p ++ ['=', '='] ∧ ('=') ∉ p := by
  induction data using base64_encode.induct with
  | case1 b1 b2 b3 rest ih =>
    have h1 : b1 < 256 := hb b1 (by simp)
    have h2 : b2 < 256 := hb b2 (by simp)
    have h3 : b3 < 256 := hb b3 (by simp)
    have hm' : rest.length % 3 = 1 := by
      simp only [List.length_cons] at hm
      omega
    obtain ⟨p, hp, hnp⟩ := ih (fun b hbm => hb b (by simp [hbm])) hm'
    refine ⟨b64At (b1 >>> 2) :: b64At (((b1 &&& 3) <<< 4) ||| (b2 >>> 4)) ::
      b64At (((b2 &&& 15) <<< 2) ||| (b3 >>> 6)) :: b64At (b3 &&& 63) :: p, ?_, ?_⟩
    · simp [base64_encode, hp]
    · simp only [List.mem_cons, not_or]
      refine ⟨?_, ?_, ?_, ?_, hnp⟩
      · exact fun h => absurd h.symm (b64At_ne_pad _ (b64_idx_a b1 h1))
      · exact fun h => absurd h.symm (b64At_ne_pad _ (b64_idx_b b1 b2 h2))
      · exact fun h => absurd h.symm (b64At_ne_pad _ (b64_idx_c b2 b3 h3))
      · exact fun h => absurd h.symm (b64At_ne_pad _ (b64_idx_d b3))
  | case2 b1 b2 => simp at hm
  | case3 b1 =>
    have h1 : b1 < 256 := hb b1 (by simp)
    refine ⟨[b64At (b1 >>> 2), b64At ((b1 &&& 3) <<< 4)], rfl, ?_⟩
    simp only [List.mem_cons, List.not_mem_nil, or_false, not_or]
    refine ⟨?_, ?_⟩
    · exact fun h => absurd h.symm (b64At_ne_pad _ (b64_idx_a b1 h1))
    · exact fun h => absurd h.symm (b64At_ne_pad _ (b64_idx_e b1))
  | case4 => simp at hm

/-- Claim C9 (confirmed): base64_encode uses the standard alphabet, turns
each complete 3-byte group into 4 output characters (so the output length
is four times the number of started groups), pads a trailing 2-byte group
with one equals sign and a trailing 1-byte group with two, emits no padding
on a multiple of three, and encodes the bytes 0x4D 0x61 0x6E as TWFu. -/
theorem c9_base64 (data : List ℕ) (hb : ∀ b ∈ data, b < 256) :
    (base64_encode data).length = 4 * ((data.length + 2) / 3) ∧
    (∀ c ∈ base64_encode data, c ∈ base64Chars ∨ c = '=') ∧
    (data.length % 3 = 0 → ('=') ∉ base64_encode data) ∧
    (data.length % 3 = 2 → ∃ p, base64_encode data = p ++ ['='] ∧ ('=') ∉ p) ∧
    (data.length % 3 = 1 → ∃ p, base64_encode data = p ++ ['=', '='] ∧ ('=') ∉ p) ∧
    base64_encode [0x4D, 0x61, 0x6E] = ("TWFu").toList :=
  ⟨b64_length data, b64_alphabet data hb, b64_no_pad data hb,
    b64_pad_two data hb, b64_pad_one data hb, by decide⟩

/-- Witness for C9 on the 3-byte scenario input. -/
theorem c9_base64_witness :
    base64_encode [0x4D, 0x61, 0x6E] = ("TWFu").toList :=
  (c9_base64 [0x4D, 0x61, 0x6E] (by decide)).2.2.2.2.2

/-- Claim C7 (confirmed): a non transparent draw_line emits exactly one
line command positioned at the from point, carrying the offsets dx, dy of
the two endpoints, whose rendered length is the square root of dx squared
plus dy squared and whose rendered angle is atan2 of dy and dx in degrees;
on the segment from (10, 10) to (100, 100) the offsets are (90, 90), the
length is within 0.01 of 127.28 and the angle is within 0.01 of 45. -/
theorem c7_line_geometry :
    (∀ (f t : ℤ × ℤ) (style : Style) (tb : TypstBackend),
      style.color.alpha ≠ 0 →
      draw_line f t style tb =
        (tb.write_command (Cmd.line f (t.1 - f.1) (t.2 - f.2)
          style.stroke_width (make_typst_color style.color)), DrawResult.ok)) ∧
    (∀ tb : TypstBackend,
      (draw_line (10, 10) (100, 100) ⟨⟨1, (0, 255, 0)⟩, 1⟩ tb).1.buf =
        tb.buf ++ [Cmd.line (10, 10) 90 90 1 (("rgb(0, 255, 0)"))]) ∧
    |lineLength 90 90 - 127.28| < 0.01 ∧
    |lineAngleDeg 90 90 - 45| < 0.01 := by
  have hcol : make_typst_color ⟨1, (0, 255, 0)⟩ = ("rgb(0, 255, 0)") := by decide
  refine ⟨?_, ?_, ?_, ?_⟩
  · intro f t style tb h
    rw [draw_line, if_neg h]
  · intro tb
    have hne : ((⟨⟨1, (0, 255, 0)⟩, 1⟩ : Style).color.alpha ≠ 0) := by decide
    rw [draw_line, if_neg hne]
    simp [TypstBackend.write_command, hcol]
  · have h0 : lineLength 90 90 = Real.sqrt 16200 := by
      rw [lineLength]
      norm_num
    have h1 : Real.sqrt 16200 < 127.29 :=
      (Real.sqrt_lt' (by norm_num)).mpr (by norm_num)
    have h2 : (127.27 : ℝ) < Real.sqrt 16200 :=
      (Real.lt_sqrt (by norm_num)).mpr (by norm_num)
    rw [h0, abs_sub_lt_iff]
    constructor <;> linarith
  · have ha : atan2 ((90 : ℤ) : ℝ) ((90 : ℤ) : ℝ) = Real.pi / 4 := by
      rw [atan2, if_pos (by norm_num : (0 : ℝ) < ((90 : ℤ) : ℝ))]
      rw [show (((90 : ℤ) : ℝ) / ((90 : ℤ) : ℝ)) = 1 by norm_num]
      exact Real.arctan_one
    have hdeg : lineAngleDeg 90 90 = 45 := by
      rw [lineAngleDeg, ha, toDegrees]
      field_simp
      ring
    rw [hdeg]
    norm_num

/-- Witness for C7 at the scenario line with an opaque green style. -/
theorem c7_line_geometry_witness :
    draw_line (10, 10) (100, 100) ⟨⟨1, (0, 255, 0)⟩, 1⟩ (mk_backend false (300, 300)) =
      ((mk_backend false (300, 300)).write_command
        (Cmd.line (10, 10) ((100 : ℤ) - 10) ((100 : ℤ) - 10) 1
          (make_typst_color ⟨1, (0, 255, 0)⟩)), DrawResult.ok) :=
  c7_line_geometry.1 (10, 10) (100, 100) ⟨⟨1, (0, 255, 0)⟩, 1⟩
    (mk_backend false (300, 300)) (by decide)

end PlottersTypst
